import Mathlib

/-!
Shallow embedding of the request-admission and concurrency-control layer of
the vespa storage node (`FileStorHandlerImpl` and its inner classes, from
`src/storage/src/vespa/storage/persistence/filestorage/filestorhandlerimpl.h`),
together with the two read-side adapters sampled alongside it
(`ElementIterator` from `src/searchlib/.../elementiterator.cpp` and
`ImportedAttributeVectorReadGuard` from
`src/searchlib/.../imported_attribute_vector_read_guard.h`).

Machine integers are embedded as `Nat`, with an explicit `% 2 ^ 64` where
64-bit wraparound matters.  Stateful code is embedded as explicit state
passing.  Where only a declaration of a member function appears in the
sampled sources, the definition carries a doc comment starting
`Modelled from the spec:` and follows the specification's description of
that member.
-/

namespace Vespa

/-! ## Disk lifecycle state (`FileStorHandler::DiskState`) -/

/-- The per-Disk lifecycle states `AVAILABLE → DISABLED → CLOSED`. -/
inductive DiskState where
  | AVAILABLE
  | DISABLED
  | CLOSED
deriving DecidableEq, Repr

/-- Position of a state along the lifecycle `AVAILABLE → DISABLED → CLOSED`. -/
def stateRank : DiskState → Nat
  | DiskState.AVAILABLE => 0
  | DiskState.DISABLED => 1
  | DiskState.CLOSED => 2

/-- Embeds `Disk::setState`: an unconditional (relaxed) store of the new
state, regardless of the current one. -/
def setState (s : DiskState) (_current : DiskState) : DiskState := s

/-- Embeds `Disk::getState`: a (relaxed) load of the stored state. -/
def getState (d : DiskState) : DiskState := d

/-- Embeds `Disk::isClosed`: `getState() == DiskState::CLOSED`. -/
def isClosed (d : DiskState) : Bool := getState d == DiskState.CLOSED

/-- The state observed after a sequence of `setState` calls. -/
def runSetStates (init : DiskState) (calls : List DiskState) : DiskState :=
  calls.foldl (fun d s => setState s d) init

/-! ## Disk-to-stripe routing (`Disk::dispersed_bucket_bits`, `Disk::stripe`) -/

/-- The 64-bit FNV-1 prime used by `dispersed_bucket_bits`. -/
def fnv1Prime : Nat := 1099511628211

/-- Embeds `Disk::dispersed_bucket_bits`: the bucket's raw 64-bit id
multiplied by the FNV-1 prime, with unsigned 64-bit wraparound. -/
def dispersed_bucket_bits (bucketId : Nat) : Nat :=
  (bucketId * fnv1Prime) % 2 ^ 64

/-- Embeds the index computation of `Disk::stripe`:
`dispersed_bucket_bits(bucket) % _stripes.size()`. -/
def stripeOf (bucketId stripeCount : Nat) : Nat :=
  dispersed_bucket_bits bucketId % stripeCount

/-! ## `ImportedAttributeVectorReadGuard::getTargetLid` -/

/-- Embeds `getTargetLid`: an index into the `_targetLids` array.  The C++
accessor performs no bounds check; the total embedding returns `none`
exactly on the out-of-bounds accesses the C++ code must never make. -/
def getTargetLid (targetLids : List Nat) (lid : Nat) : Option Nat :=
  targetLids.get? lid

/-! ## `ElementIterator` (searchlib) -/

/-- The three-valued strictness result `vespalib::Trinary`. -/
inductive Trinary where
  | isTrue
  | isFalse
  | undefined
deriving DecidableEq, Repr

/-- Behaviour of a wrapped `SearchIterator` over an abstract state type:
its seek and range-initialisation transitions together with its observable
document id and strictness. -/
structure IteratorModel (σ : Type) where
  doSeek : σ → Nat → σ
  initRange : σ → Nat → Nat → σ
  getDocId : σ → Nat
  strictness : σ → Trinary

/-- State of an `ElementIterator`: the wrapped iterator `_search` plus the
adapter's own current document id (set through `setDocId`). -/
structure ElementIterator (σ : Type) where
  search : σ
  docId : Nat

/-- Embeds `ElementIterator::doSeek`: forwards the seek to `_search`, then
`setDocId(_search->getDocId())`. -/
def ElementIterator.doSeek {σ : Type} (M : IteratorModel σ)
    (it : ElementIterator σ) (docid : Nat) : ElementIterator σ :=
  let s := M.doSeek it.search docid
  { search := s, docId := M.getDocId s }

/-- Embeds `ElementIterator::initRange`: runs the base-class range
initialisation (whose effect on the adapter's doc id is `base`), forwards
`initRange` to `_search`, then `setDocId(_search->getDocId())`. -/
def ElementIterator.initRange {σ : Type} (M : IteratorModel σ)
    (base : Nat → Nat → Nat → Nat) (it : ElementIterator σ)
    (beginid endid : Nat) : ElementIterator σ :=
  let _d0 := base it.docId beginid endid
  let s := M.initRange it.search beginid endid
  { search := s, docId := M.getDocId s }

/-- Embeds `ElementIterator::is_strict`: returns `_search->is_strict()`. -/
def ElementIterator.strictness {σ : Type} (M : IteratorModel σ)
    (it : ElementIterator σ) : Trinary :=
  M.strictness it.search

/-- Running a list of seeks directly on the wrapped iterator. -/
def runInner {σ : Type} (M : IteratorModel σ) (s : σ) (seeks : List Nat) : σ :=
  seeks.foldl M.doSeek s

/-- Running a list of seeks through the `ElementIterator` adapter. -/
def runWrapped {σ : Type} (M : IteratorModel σ) (it : ElementIterator σ)
    (seeks : List Nat) : ElementIterator σ :=
  seeks.foldl (ElementIterator.doSeek M) it

/-- Helper: one wrapped seek keeps the inner state in lock-step and leaves
the adapter's doc id equal to the inner iterator's doc id. -/
theorem runWrapped_search {σ : Type} (M : IteratorModel σ)
    (seeks : List Nat) : ∀ it : ElementIterator σ,
    (runWrapped M it seeks).search = runInner M it.search seeks ∧
    ((runWrapped M it seeks).docId = M.getDocId (runWrapped M it seeks).search ∨
      runWrapped M it seeks = it) := by
  induction seeks with
  | nil => exact fun it => ⟨rfl, Or.inr rfl⟩
  | cons a as ih =>
      intro it
      refine ⟨?_, ?_⟩
      · have h := (ih (ElementIterator.doSeek M it a)).1
        simpa [runWrapped, runInner, ElementIterator.doSeek] using h
      · rcases (ih (ElementIterator.doSeek M it a)).2 with h | h
        · exact Or.inl (by simpa [runWrapped] using h)
        · refine Or.inl ?_
          have : runWrapped M it (a :: as) = ElementIterator.doSeek M it a := by
            simpa [runWrapped] using h
          rw [this]
          simp [ElementIterator.doSeek]

/-! ## Locking (`api::LockingRequirements`, `Stripe::LockEntry`,
`Stripe::MultiLockEntry`) -/

/-- The two locking requirements of `api::LockingRequirements`. -/
inductive LockingRequirements where
  | Shared
  | Exclusive
deriving DecidableEq, Repr

/-- Embeds `Stripe::LockEntry`: the identity of one lock holder. -/
structure LockEntry where
  timestamp : Nat
  priority : Nat
  msgType : Nat
  msgId : Nat
deriving DecidableEq, Repr

/-- Embeds `Stripe::MultiLockEntry`: an optional exclusive holder plus a
map (here an association list) from holder message id to shared holders. -/
structure MultiLockEntry where
  exclusiveLock : Option LockEntry
  sharedLocks : List (Nat × LockEntry)
deriving DecidableEq, Repr

/-- A bucket with no locks at all. -/
def MultiLockEntry.empty : MultiLockEntry := ⟨none, []⟩

/-- Modelled from the spec: the body of `Stripe::isLocked` is not under
`src/` (only its declaration).  Per §3/§4.1 an exclusive holder conflicts
with every request, and shared holders conflict only with an exclusive
request. -/
def isLocked (m : MultiLockEntry) (lockReq : LockingRequirements) : Bool :=
  m.exclusiveLock.isSome ||
    (lockReq == LockingRequirements.Exclusive && !m.sharedLocks.isEmpty)

/-- Modelled from the spec: the body of the guarded `Stripe::lock` is not
under `src/`.  An exclusive acquisition installs the holder as
`_exclusiveLock`; a shared acquisition inserts the holder into
`_sharedLocks` keyed by its message id. -/
def lockBucket (m : MultiLockEntry) (lockReq : LockingRequirements)
    (entry : LockEntry) : MultiLockEntry :=
  match lockReq with
  | LockingRequirements.Exclusive => { m with exclusiveLock := some entry }
  | LockingRequirements.Shared =>
      { m with sharedLocks := (entry.msgId, entry) :: m.sharedLocks }

/-- Modelled from the spec: the body of `Stripe::release` is not under
`src/`.  Releasing removes the identified holder: the exclusive holder if
its message id matches, or the shared holder with the given message id. -/
def releaseBucket (m : MultiLockEntry) (lockReq : LockingRequirements)
    (msgId : Nat) : MultiLockEntry :=
  match lockReq with
  | LockingRequirements.Exclusive =>
      if m.exclusiveLock.map LockEntry.msgId = some msgId
      then { m with exclusiveLock := none } else m
  | LockingRequirements.Shared =>
      { m with sharedLocks := m.sharedLocks.filter (fun p => p.1 != msgId) }

/-- One lock-table operation on a Stripe: a lock acquisition (performed by
the code only when `isLocked` reports no conflict) or a release. -/
inductive LockOp where
  | lock (bucket : Nat) (req : LockingRequirements) (entry : LockEntry)
  | release (bucket : Nat) (req : LockingRequirements) (msgId : Nat)

/-- Applies one operation to the lock table `_lockedBuckets` (embedded as a
total map from bucket to `MultiLockEntry`, missing buckets being
unlocked).  An acquisition that would conflict leaves the table unchanged,
mirroring that the code performs `lock` only after `isLocked` reports
compatibility. -/
def applyLockOp (t : Nat → MultiLockEntry) : LockOp → Nat → MultiLockEntry
  | LockOp.lock b req e =>
      if isLocked (t b) req then t
      else fun b' => if b' = b then lockBucket (t b) req e else t b'
  | LockOp.release b req m =>
      fun b' => if b' = b then releaseBucket (t b) req m else t b'

/-- The lock table reached from the initially empty table by a sequence of
lock and release operations. -/
def runLockOps (ops : List LockOp) : Nat → MultiLockEntry :=
  ops.foldl applyLockOp (fun _ => MultiLockEntry.empty)

/-- A bucket's lock entry never holds an exclusive holder and shared
holders at the same time. -/
def lockStateConsistent (m : MultiLockEntry) : Prop :=
  m.exclusiveLock = none ∨ m.sharedLocks = []

/-! ## Messages and the priority queue -/

/-- The parts of `api::StorageMessage` this layer reads: id, type,
priority, declared locking requirement, and specified timeout. -/
structure StorageMessage where
  msgId : Nat
  msgType : Nat
  priority : Nat
  lockReq : LockingRequirements
  timeoutMs : Nat
deriving DecidableEq, Repr

/-- Embeds `FileStorHandlerImpl::MessageEntry`: the queued command, its
target bucket, and its priority. -/
structure MessageEntry where
  command : StorageMessage
  bucket : Nat
  priority : Nat
deriving DecidableEq, Repr

/-- Embeds `MessageEntry::operator<`: compares only `_priority`. -/
def MessageEntry.ltOp (a b : MessageEntry) : Bool :=
  decide (a.priority < b.priority)

/-- Insertion into the priority-ordered view of the `PriorityQueue`
(`bmi::ordered_non_unique` over `operator<`): a new element is placed at
the upper bound of its equivalence class, i.e. after every element it is
not `operator<`-below, so elements of equal priority keep insertion
order.  Entries are tagged with their enqueue sequence number. -/
def priorityInsert (e : Nat × MessageEntry) :
    List (Nat × MessageEntry) → List (Nat × MessageEntry)
  | [] => [e]
  | x :: xs =>
      if MessageEntry.ltOp e.2 x.2 then e :: x :: xs
      else x :: priorityInsert e xs

/-- A sequence of `schedule` calls: each entry is tagged with the next
sequence number and inserted into the priority-ordered view. -/
def scheduleAll :
    Nat → List (Nat × MessageEntry) → List MessageEntry →
      List (Nat × MessageEntry)
  | _, q, [] => q
  | n, q, e :: es => scheduleAll (n + 1) (priorityInsert (n, e) q) es

/-- A lock table holding no locks on any bucket. -/
def noLocks : Nat → MultiLockEntry := fun _ => MultiLockEntry.empty

/-- Modelled from the spec: the body of `Stripe::getNextMessage` is not
under `src/`.  The scan walks the priority-ordered view from most to least
urgent and skips every entry whose bucket is lock-incompatible with the
entry's locking requirement; the first compatible entry is removed from
the queue and returned. -/
def scanQueue (t : Nat → MultiLockEntry) :
    List (Nat × MessageEntry) →
      Option ((Nat × MessageEntry) × List (Nat × MessageEntry))
  | [] => none
  | e :: rest =>
      if isLocked (t e.2.bucket) e.2.command.lockReq then
        match scanQueue t rest with
        | none => none
        | some (m, q') => some (m, e :: q')
      else some (e, rest)

/-- Modelled from the spec: `Stripe::getNextMessage` returns the first
compatible entry together with the remaining queue; when no entry is
eligible it waits up to the timeout and then returns an empty
`LockedMessage`, leaving the queue untouched — it does not error. -/
def getNextMessageModel (t : Nat → MultiLockEntry)
    (q : List (Nat × MessageEntry)) :
    Option (Nat × MessageEntry) × List (Nat × MessageEntry) :=
  match scanQueue t q with
  | none => (none, q)
  | some (m, q') => (some m, q')

/-- Successive `getNextMessage` calls with no lock conflicts: repeatedly
take the next eligible entry until the queue is empty. -/
def drainAll : Nat → List (Nat × MessageEntry) → List (Nat × MessageEntry)
  | 0, _ => []
  | fuel + 1, q =>
      match getNextMessageModel noLocks q with
      | (some e, q') => e :: drainAll fuel q'
      | (none, _) => []

/-- Dequeue order required of the priority queue: strictly smaller
priority first, and within equal priority strictly earlier enqueue
sequence number first. -/
def prioSeqLe (a b : Nat × MessageEntry) : Prop :=
  a.2.priority < b.2.priority ∨
    (a.2.priority = b.2.priority ∧ a.1 < b.1)

/-! ## Queue timeout handling -/

/-- The return codes this layer produces on its error paths. -/
inductive ReturnCode where
  | OK
  | TIMEOUT
  | ABORTED
deriving DecidableEq, Repr

/-- A storage reply: which message it answers and its return code. -/
structure StorageReply where
  inReplyTo : Nat
  code : ReturnCode
deriving DecidableEq, Repr

/-- Modelled from the spec: the body of
`FileStorHandlerImpl::messageTimedOutInQueue` is not under `src/`; per its
header doc it decides whether the message has timed out based on the wait
time and the message's specified timeout. -/
def messageTimedOutInQueue (msg : StorageMessage) (waitTime : Nat) : Bool :=
  decide (msg.timeoutMs < waitTime)

/-- Modelled from the spec: the body of
`FileStorHandlerImpl::makeQueueTimeoutReply` is not under `src/`; per its
header doc it creates a reply with `api::TIMEOUT` return code for `msg`. -/
def makeQueueTimeoutReply (msg : StorageMessage) : StorageReply :=
  { inReplyTo := msg.msgId, code := ReturnCode.TIMEOUT }

/-- Modelled from the spec: the dispatch step of `Stripe::getMessage` is
not under `src/`.  An entry that has timed out in the queue is turned into
a synthetic timeout reply sent through the message sender and is not
handed to the worker; otherwise the entry is dispatched. -/
def dispatchEntry (waitTime : Nat) (e : Nat × MessageEntry) :
    Option (Nat × MessageEntry) × List StorageReply :=
  if messageTimedOutInQueue e.2.command waitTime then
    (none, [makeQueueTimeoutReply e.2.command])
  else
    (some e, [])

/-! ## Disk admission (`Disk::schedule`) -/

/-- Modelled from the spec: the body of `Disk::schedule` is not under
`src/`.  Scheduling enqueues the entry only on an `AVAILABLE` disk; on a
`CLOSED` or `DISABLED` disk it rejects the operation, and the rejection
carries the observed disk state (as `FileStorHandlerImpl::reply` builds
the rejection reply from the `DiskState`), so the two failures are
distinguishable. -/
def diskSchedule (st : DiskState) (n : Nat)
    (q : List (Nat × MessageEntry)) (e : MessageEntry) :
    Except DiskState (List (Nat × MessageEntry)) :=
  match st with
  | DiskState.AVAILABLE => Except.ok (priorityInsert (n, e) q)
  | DiskState.DISABLED => Except.error DiskState.DISABLED
  | DiskState.CLOSED => Except.error DiskState.CLOSED

/-! ## `FileStorHandlerImpl::BucketLock` -/

/-- Embeds the fields of `BucketLock` recorded at construction: the
constructing stripe, the bucket, the holder's unique message id and the
locking requirement. -/
structure BucketLock where
  stripeId : Nat
  bucket : Nat
  uniqueMsgId : Nat
  lockReq : LockingRequirements
deriving DecidableEq, Repr

/-- One release invocation on a stripe's lock table. -/
structure ReleaseCall where
  stripeId : Nat
  bucket : Nat
  lockReq : LockingRequirements
  msgId : Nat
deriving DecidableEq, Repr

/-- Modelled from the spec: the body of `~BucketLock` is not under `src/`.
Destroying the handle calls `release` on the stripe recorded at
construction with the recorded bucket, locking requirement and message
id.  A live handle is `some`; destruction consumes it, so a destroyed
handle is `none` and a second destruction can emit no release. -/
def destroyHandle : Option BucketLock → List ReleaseCall × Option BucketLock
  | none => ([], none)
  | some l => ([⟨l.stripeId, l.bucket, l.lockReq, l.uniqueMsgId⟩], none)

/-! ## Theorems -/

/-- C5: `Disk::stripe` maps a bucket to the stripe with index
`(bucketId * 1099511628211 mod 2^64) mod stripeCount`; for a non-zero
stripe count this index is always a valid stripe index, and since the
computation is a pure function of the bucket id and the stripe count, the
same bucket always maps to the same single stripe while the stripe count
is fixed. -/
theorem disk_stripe_routing (bucketId stripeCount : Nat)
    (h : 0 < stripeCount) :
    stripeOf bucketId stripeCount =
      ((bucketId * 1099511628211) % 2 ^ 64) % stripeCount ∧
    stripeOf bucketId stripeCount < stripeCount := by
  exact ⟨rfl, Nat.mod_lt _ h⟩

/-- Witness for `disk_stripe_routing` at bucket id 12345 and 7 stripes. -/
theorem disk_stripe_routing_witness :
    0 < 7 ∧
    (stripeOf 12345 7 = ((12345 * 1099511628211) % 2 ^ 64) % 7 ∧
      stripeOf 12345 7 < 7) :=
  ⟨by decide, disk_stripe_routing 12345 7 (by decide)⟩

/-- C4 counterexample: `Disk::setState` is an unconditional store, so a
`setState(AVAILABLE)` call issued while the state is `CLOSED` moves the
observed state back to `AVAILABLE` — the lifecycle is not monotonic over
arbitrary `setState` call sequences, and `CLOSED` is not absorbing. -/
theorem setState_allows_resurrection :
    getState (runSetStates DiskState.CLOSED [DiskState.AVAILABLE]) =
      DiskState.AVAILABLE ∧
    stateRank (getState (runSetStates DiskState.CLOSED [DiskState.AVAILABLE]))
      < stateRank DiskState.CLOSED := by
  decide

/-- C4 (amended): `setState` stores unconditionally, so the observed state
after a sequence of `setState` calls is exactly the last state stored; when
the stored states never decrease along `AVAILABLE → DISABLED → CLOSED`
the observed rank never decreases, and in particular a disk that is
`CLOSED` stays `CLOSED`.  Monotonicity is a caller obligation, not enforced
by `setState`. -/
theorem disk_setState_last_write_wins (init : DiskState)
    (calls : List DiskState)
    (h : List.Chain (fun a b => stateRank a ≤ stateRank b) init calls) :
    getState (runSetStates init calls) =
      (init :: calls).getLast (List.cons_ne_nil init calls) ∧
    stateRank init ≤ stateRank (getState (runSetStates init calls)) ∧
    (init = DiskState.CLOSED →
      getState (runSetStates init calls) = DiskState.CLOSED) := by
  induction calls generalizing init with
  | nil =>
      exact ⟨rfl, Nat.le_refl _, fun hi => hi ▸ rfl⟩
  | cons c cs ih =>
      cases h with
      | cons hic hcs =>
          have hrec := ih c hcs
          have hrun : runSetStates init (c :: cs) = runSetStates c cs := rfl
          refine ⟨?_, ?_, ?_⟩
          · rw [hrun, List.getLast_cons (List.cons_ne_nil c cs)]
            exact hrec.1
          · rw [hrun]
            exact Nat.le_trans hic hrec.2.1
          · intro hinit
            rw [hrun]
            have hle : 2 ≤ stateRank c := by
              rw [hinit] at hic
              simpa [stateRank] using hic
            have hc : c = DiskState.CLOSED := by
              cases c
              · exact absurd hle (by decide)
              · exact absurd hle (by decide)
              · rfl
            exact hrec.2.2 hc

/-- Witness for `disk_setState_last_write_wins` on the monotone call
sequence `AVAILABLE; [DISABLED, CLOSED]`. -/
theorem disk_setState_last_write_wins_witness :
    List.Chain (fun a b => stateRank a ≤ stateRank b) DiskState.AVAILABLE
      [DiskState.DISABLED, DiskState.CLOSED] ∧
    (getState (runSetStates DiskState.AVAILABLE
        [DiskState.DISABLED, DiskState.CLOSED]) =
      (DiskState.AVAILABLE :: [DiskState.DISABLED, DiskState.CLOSED]).getLast
        (List.cons_ne_nil _ _) ∧
    stateRank DiskState.AVAILABLE ≤
      stateRank (getState (runSetStates DiskState.AVAILABLE
        [DiskState.DISABLED, DiskState.CLOSED])) ∧
    (DiskState.AVAILABLE = DiskState.CLOSED →
      getState (runSetStates DiskState.AVAILABLE
        [DiskState.DISABLED, DiskState.CLOSED]) = DiskState.CLOSED)) :=
  ⟨List.Chain.cons (by decide) (List.Chain.cons (by decide) List.Chain.nil),
    disk_setState_last_write_wins DiskState.AVAILABLE
      [DiskState.DISABLED, DiskState.CLOSED]
      (List.Chain.cons (by decide) (List.Chain.cons (by decide)
        List.Chain.nil))⟩

/-- C10: `getTargetLid` is an unchecked array access — for every `lid`
strictly below the size of `_targetLids` it returns the stored target lid,
so under that precondition the out-of-bounds branch (`none`) of the total
embedding is unreachable. -/
theorem getTargetLid_in_bounds (targetLids : List Nat) (lid : Nat)
    (h : lid < targetLids.length) :
    getTargetLid targetLids lid = some (targetLids.get ⟨lid, h⟩) := by
  simp [getTargetLid, List.get?_eq_get h]

/-- Witness for `getTargetLid_in_bounds` on the array `[7, 8, 9]` at 1. -/
theorem getTargetLid_in_bounds_witness :
    1 < [7, 8, 9].length ∧
    getTargetLid [7, 8, 9] 1 = some ([7, 8, 9].get ⟨1, by decide⟩) :=
  ⟨by decide, getTargetLid_in_bounds [7, 8, 9] 1 (by decide)⟩

/-- C9: `ElementIterator` is a transparent positional adapter — starting
from `initRange(beginid, endid)` and after any sequence of `doSeek` calls,
its wrapped iterator has evolved exactly as the bare iterator would, its
current doc id equals the wrapped iterator's doc id, and `is_strict`
returns exactly the wrapped iterator's strictness. -/
theorem elementIterator_transparent {σ : Type} (M : IteratorModel σ)
    (base : Nat → Nat → Nat → Nat) (s0 : σ) (d0 beginid endid : Nat)
    (seeks : List Nat) :
    (runWrapped M (ElementIterator.initRange M base ⟨s0, d0⟩ beginid endid)
        seeks).search =
      runInner M (M.initRange s0 beginid endid) seeks ∧
    (runWrapped M (ElementIterator.initRange M base ⟨s0, d0⟩ beginid endid)
        seeks).docId =
      M.getDocId (runInner M (M.initRange s0 beginid endid) seeks) ∧
    ElementIterator.strictness M
        (runWrapped M (ElementIterator.initRange M base ⟨s0, d0⟩ beginid endid)
          seeks) =
      M.strictness (runInner M (M.initRange s0 beginid endid) seeks) := by
  have h := runWrapped_search M seeks
    (ElementIterator.initRange M base ⟨s0, d0⟩ beginid endid)
  have hsearch : (runWrapped M
      (ElementIterator.initRange M base ⟨s0, d0⟩ beginid endid) seeks).search =
      runInner M (M.initRange s0 beginid endid) seeks := by
    simpa [ElementIterator.initRange] using h.1
  refine ⟨hsearch, ?_, by simp [ElementIterator.strictness, hsearch]⟩
  rcases h.2 with hd | hd
  · rw [hd, hsearch]
  · have hrun : runInner M (M.initRange s0 beginid endid) seeks =
        M.initRange s0 beginid endid := by
      rw [← hsearch, hd]
      simp [ElementIterator.initRange]
    rw [hd, hrun]
    simp [ElementIterator.initRange]

/-- Helper: one lock-table operation preserves consistency of every
bucket's lock entry. -/
theorem lockStateConsistent_step (t : Nat → MultiLockEntry) (op : LockOp)
    (h : ∀ b, lockStateConsistent (t b)) :
    ∀ b, lockStateConsistent (applyLockOp t op b) := by
  intro b
  cases op with
  | lock b0 req e =>
      by_cases hl : isLocked (t b0) req
      · simpa [applyLockOp, hl] using h b
      · simp only [applyLockOp, hl, if_false, Bool.false_eq_true]
        by_cases hb : b = b0
        · subst hb
          simp only [if_pos rfl]
          cases req with
          | Exclusive =>
              have hsh : (t b).sharedLocks = [] := by
                simp only [isLocked, Bool.or_eq_true, Bool.and_eq_true,
                  Bool.not_eq_true'] at hl
                push_neg at hl
                have h2 := hl.2 (by rfl)
                exact List.isEmpty_iff.mp (by simpa using h2)
              exact Or.inr (by simpa [lockBucket] using hsh)
          | Shared =>
              have hex : (t b).exclusiveLock = none := by
                simp only [isLocked, Bool.or_eq_true] at hl
                push_neg at hl
                exact Option.not_isSome_iff_eq_none.mp (by
                  simpa using hl.1)
              exact Or.inl (by simpa [lockBucket] using hex)
        · simpa [if_neg hb] using h b
  | release b0 req m =>
      simp only [applyLockOp]
      by_cases hb : b = b0
      · subst hb
        simp only [if_pos rfl]
        cases req with
        | Exclusive =>
            by_cases hm : (t b).exclusiveLock.map LockEntry.msgId = some m
            · exact Or.inl (by simp [releaseBucket, hm])
            · simpa [releaseBucket, hm] using h b
        | Shared =>
            rcases h b with hex | hsh
            · exact Or.inl (by simpa [releaseBucket] using hex)
            · exact Or.inr (by simp [releaseBucket, hsh])
      · simpa [if_neg hb] using h b

/-- Helper: consistency holds for every lock table reachable by folding
operations over a consistent table. -/
theorem lockStateConsistent_fold (ops : List LockOp) :
    ∀ t : Nat → MultiLockEntry, (∀ b, lockStateConsistent (t b)) →
      ∀ b, lockStateConsistent (ops.foldl applyLockOp t b) := by
  induction ops with
  | nil => exact fun t h => h
  | cons op ops ih =>
      exact fun t h => ih _ (lockStateConsistent_step t op h)

/-- C2: in every lock-table state reachable by any interleaving of lock
and release operations, each bucket's `MultiLockEntry` is in exactly one
of the three states unlocked, exclusively locked with no shared holders,
or shared-locked with no exclusive holder; an exclusive holder and shared
holders never coexist. -/
theorem lock_table_three_states (ops : List LockOp) (b : Nat) :
    (((runLockOps ops b).exclusiveLock = none ∧
        (runLockOps ops b).sharedLocks = []) ∨
      ((runLockOps ops b).exclusiveLock ≠ none ∧
        (runLockOps ops b).sharedLocks = []) ∨
      ((runLockOps ops b).exclusiveLock = none ∧
        (runLockOps ops b).sharedLocks ≠ [])) ∧
    ¬((runLockOps ops b).exclusiveLock ≠ none ∧
        (runLockOps ops b).sharedLocks ≠ []) := by
  have h := lockStateConsistent_fold ops (fun _ => MultiLockEntry.empty)
    (fun _ => Or.inl rfl) b
  have h' : lockStateConsistent (runLockOps ops b) := h
  constructor
  · rcases h' with hex | hsh
    · by_cases hs : (runLockOps ops b).sharedLocks = []
      · exact Or.inl ⟨hex, hs⟩
      · exact Or.inr (Or.inr ⟨hex, hs⟩)
    · by_cases he : (runLockOps ops b).exclusiveLock = none
      · exact Or.inl ⟨he, hsh⟩
      · exact Or.inr (Or.inl ⟨he, hsh⟩)
  · rintro ⟨he, hs⟩
    rcases h' with hex | hsh
    · exact he hex
    · exact hs hsh

/-- Helper: `priorityInsert` permutes the new element into the queue. -/
theorem priorityInsert_perm (e : Nat × MessageEntry)
    (q : List (Nat × MessageEntry)) :
    List.Perm (priorityInsert e q) (e :: q) := by
  induction q with
  | nil => exact List.Perm.refl _
  | cons x xs ih =>
      by_cases hlt : MessageEntry.ltOp e.2 x.2
      · simp [priorityInsert, hlt]
      · simp only [priorityInsert, hlt, Bool.false_eq_true, if_false]
        exact (ih.cons x).trans (List.Perm.swap e x xs)

/-- Helper: inserting an entry with a fresh (largest) sequence number into
a queue ordered by priority then sequence keeps the queue ordered. -/
theorem pairwise_priorityInsert (e : Nat × MessageEntry)
    (q : List (Nat × MessageEntry)) (hq : List.Pairwise prioSeqLe q)
    (hseq : ∀ x ∈ q, x.1 < e.1) :
    List.Pairwise prioSeqLe (priorityInsert e q) := by
  induction q with
  | nil => simp [priorityInsert]
  | cons x xs ih =>
      rw [List.pairwise_cons] at hq
      obtain ⟨hx, hxs⟩ := hq
      by_cases hlt : MessageEntry.ltOp e.2 x.2
      · have hex : e.2.priority < x.2.priority := by
          simpa [MessageEntry.ltOp] using hlt
        simp only [priorityInsert, hlt, if_true]
        refine List.Pairwise.cons ?_ (List.Pairwise.cons hx hxs)
        intro y hy
        rcases List.mem_cons.mp hy with rfl | hy'
        · exact Or.inl hex
        · rcases hx y hy' with h1 | h1
          · exact Or.inl (lt_trans hex h1)
          · exact Or.inl (h1.1 ▸ hex)
      · simp only [priorityInsert, hlt, Bool.false_eq_true, if_false]
        refine List.Pairwise.cons ?_
          (ih hxs (fun y hy => hseq y (List.mem_cons_of_mem _ hy)))
        intro y hy
        rcases List.mem_cons.mp ((priorityInsert_perm e xs).mem_iff.mp hy)
          with hy1 | hy'
        · rw [hy1]
          have hxe : ¬ e.2.priority < x.2.priority := by
            simpa [MessageEntry.ltOp] using hlt
          rcases lt_or_eq_of_le (le_of_not_lt hxe) with h1 | h1
          · exact Or.inl h1
          · exact Or.inr ⟨h1, hseq x (List.mem_cons_self x xs)⟩
        · exact hx y hy'

/-- Helper: the queue built by `scheduleAll` is a permutation of the
scheduled entries tagged with their enqueue sequence numbers. -/
theorem scheduleAll_perm (es : List MessageEntry) :
    ∀ (n : Nat) (q : List (Nat × MessageEntry)),
      List.Perm (scheduleAll n q es) (List.enumFrom n es ++ q) := by
  induction es with
  | nil => intro n q; simp [scheduleAll]
  | cons e es ih =>
      intro n q
      exact (ih (n + 1) (priorityInsert (n, e) q)).trans
        ((List.Perm.append_left _ (priorityInsert_perm (n, e) q)).trans
          List.perm_middle)

/-- Helper: `scheduleAll` keeps the queue ordered by priority then
sequence when it starts from an ordered queue whose sequence numbers are
all below the next sequence number. -/
theorem scheduleAll_pairwise (es : List MessageEntry) :
    ∀ (n : Nat) (q : List (Nat × MessageEntry)),
      List.Pairwise prioSeqLe q → (∀ x ∈ q, x.1 < n) →
      List.Pairwise prioSeqLe (scheduleAll n q es) := by
  induction es with
  | nil => exact fun n q hq _ => hq
  | cons e es ih =>
      intro n q hq hseq
      refine ih (n + 1) (priorityInsert (n, e) q)
        (pairwise_priorityInsert (n, e) q hq hseq) ?_
      intro x hx
      rcases List.mem_cons.mp ((priorityInsert_perm (n, e) q).mem_iff.mp hx)
        with rfl | hx'
      · exact Nat.lt_succ_self n
      · exact Nat.lt_trans (hseq x hx') (Nat.lt_succ_self n)

/-- Helper: with no locks held, successive `getNextMessage` calls dequeue
the priority-ordered view front to back, unchanged. -/
theorem drainAll_noLocks (q : List (Nat × MessageEntry)) :
    drainAll q.length q = q := by
  induction q with
  | nil => rfl
  | cons x xs ih =>
      simp [drainAll, getNextMessageModel, scanQueue, isLocked, noLocks,
        MultiLockEntry.empty, ih]

/-- C1: for every sequence of `schedule` calls at mixed priorities,
successive `getNextMessage` calls with no lock conflicts dequeue exactly
the queue contents (a permutation of the scheduled entries tagged with
their enqueue sequence numbers), in an order in which priorities never
decrease and entries of equal priority appear in FIFO enqueue order —
even though `MessageEntry::operator<` compares only `_priority`. -/
theorem stripe_dequeue_priority_fifo (es : List MessageEntry) :
    drainAll (scheduleAll 0 [] es).length (scheduleAll 0 [] es) =
      scheduleAll 0 [] es ∧
    List.Pairwise prioSeqLe (scheduleAll 0 [] es) ∧
    List.Perm (scheduleAll 0 [] es) (List.enumFrom 0 es) := by
  refine ⟨drainAll_noLocks _, ?_, ?_⟩
  · exact scheduleAll_pairwise es 0 [] List.Pairwise.nil (by simp)
  · simpa using scheduleAll_perm es 0 []

/-- Helper: a scan over a queue whose every entry conflicts with a held
lock finds nothing. -/
theorem scanQueue_all_blocked (t : Nat → MultiLockEntry) :
    ∀ q : List (Nat × MessageEntry),
      (∀ e ∈ q, isLocked (t e.2.bucket) e.2.command.lockReq = true) →
      scanQueue t q = none := by
  intro q
  induction q with
  | nil => intro _; rfl
  | cons x xs ih =>
      intro h
      simp [scanQueue, h x (List.mem_cons_self x xs),
        ih (fun e he => h e (List.mem_cons_of_mem _ he))]

/-- C6: when the queue is empty or every queued entry's bucket conflicts
with a held lock, `getNextMessage` returns an empty result after the wait
and removes nothing from the queue — it does not error. -/
theorem getNextMessage_blocked_returns_empty (t : Nat → MultiLockEntry)
    (q : List (Nat × MessageEntry))
    (h : ∀ e ∈ q, isLocked (t e.2.bucket) e.2.command.lockReq = true) :
    getNextMessageModel t q = (none, q) := by
  simp [getNextMessageModel, scanQueue_all_blocked t q h]

/-- A lock table with an exclusive holder on every bucket, used to witness
`getNextMessage_blocked_returns_empty`. -/
def allExclusive : Nat → MultiLockEntry :=
  fun _ => ⟨some ⟨0, 0, 0, 1⟩, []⟩

/-- A concrete queued entry targeting bucket 3, used in witnesses. -/
def sampleEntry : MessageEntry :=
  { command := { msgId := 2, msgType := 0, priority := 5,
                 lockReq := LockingRequirements.Shared, timeoutMs := 1000 },
    bucket := 3, priority := 5 }

/-- Witness for `getNextMessage_blocked_returns_empty`: a one-entry queue
whose bucket is exclusively locked. -/
theorem getNextMessage_blocked_returns_empty_witness :
    (∀ e ∈ [(0, sampleEntry)],
      isLocked (allExclusive e.2.bucket) e.2.command.lockReq = true) ∧
    getNextMessageModel allExclusive [(0, sampleEntry)] =
      (none, [(0, sampleEntry)]) :=
  ⟨by decide,
    getNextMessage_blocked_returns_empty allExclusive [(0, sampleEntry)]
      (by decide)⟩

/-- C7: an entry whose waiting time exceeds its message's timeout
threshold is never handed to a worker; instead exactly one synthetic reply
with return code `api::TIMEOUT`, carrying that message's id, is produced
via `makeQueueTimeoutReply` and delivered through the message sender — the
entry is neither dispatched nor silently dropped. -/
theorem queue_timeout_synthesizes_reply (waitTime : Nat)
    (e : Nat × MessageEntry)
    (h : messageTimedOutInQueue e.2.command waitTime = true) :
    dispatchEntry waitTime e =
      (none, [{ inReplyTo := e.2.command.msgId,
                code := ReturnCode.TIMEOUT }]) := by
  simp [dispatchEntry, h, makeQueueTimeoutReply]

/-- Witness for `queue_timeout_synthesizes_reply`: `sampleEntry` has a
1000ms timeout and has waited 1001ms. -/
theorem queue_timeout_synthesizes_reply_witness :
    messageTimedOutInQueue sampleEntry.command 1001 = true ∧
    dispatchEntry 1001 (0, sampleEntry) =
      (none, [{ inReplyTo := sampleEntry.command.msgId,
                code := ReturnCode.TIMEOUT }]) :=
  ⟨by decide, queue_timeout_synthesizes_reply 1001 (0, sampleEntry)
    (by decide)⟩

/-- C8: `schedule` on a `CLOSED` disk rejects and enqueues nothing;
on a `DISABLED` disk it also rejects, with a condition distinguishable
from the `CLOSED` one; only on an `AVAILABLE` disk does it succeed, and
then it enqueues exactly the given entry. -/
theorem disk_schedule_state_gating (n : Nat)
    (q : List (Nat × MessageEntry)) (e : MessageEntry) :
    diskSchedule DiskState.CLOSED n q e =
      Except.error DiskState.CLOSED ∧
    diskSchedule DiskState.DISABLED n q e =
      Except.error DiskState.DISABLED ∧
    diskSchedule DiskState.DISABLED n q e ≠
      diskSchedule DiskState.CLOSED n q e ∧
    diskSchedule DiskState.AVAILABLE n q e =
      Except.ok (priorityInsert (n, e) q) := by
  refine ⟨rfl, rfl, ?_, rfl⟩
  intro hcontra
  simp [diskSchedule] at hcontra

/-- C3: destroying a `BucketLock` handle performs exactly one release, of
exactly the (stripe, bucket, locking requirement, holder message id)
recorded at construction; a destroyed handle is gone, so a second
destruction performs no release — never zero releases and never two. -/
theorem bucketLock_single_release (l : BucketLock) :
    (destroyHandle (some l)).1 =
      [⟨l.stripeId, l.bucket, l.lockReq, l.uniqueMsgId⟩] ∧
    (destroyHandle (some l)).1.length = 1 ∧
    (destroyHandle (some l)).2 = none ∧
    (destroyHandle (destroyHandle (some l)).2).1 = [] := by
  exact ⟨rfl, rfl, rfl, rfl⟩

end Vespa
